import Mathlib

/-!
# Verification of the power-calculator statistical core

Shallow embedding of the formula engine of `power-calculator-2.py`:
`calculate_power`, `calculate_mde`, `calculate_sample_size` and the
allocation sweep `generate_treatment_comparison_data`, together with the
optimal-point selection performed by `main`.

Real arithmetic in the source (Python floats, `scipy.stats.norm`) is
modelled over `ℝ`.  The standard-normal distribution functions
`stats.norm.cdf` / `stats.norm.ppf` are modelled by an interface
(`Gauss`) recording exactly the analytic facts the code relies on:
the cdf is a strictly increasing map onto (0,1), symmetric about 0,
`ppf` is its right inverse on (0,1), and increments of the cdf over an
interval shrink as the interval's midpoint moves away from the origin
(true of every symmetric unimodal distribution, in particular the
normal).  A concrete instance (`logisticGauss`, built from the standard
logistic distribution, which satisfies the same interface) is provided
so that every theorem can be exercised on explicit inputs.

Python's `int(...)` truncation and banker's-rounding `round(...)` are
modelled exactly by `pyInt` and `pyRound`.
-/

noncomputable section

open Real

/-- Python `int(x)` on a float: truncation toward zero. -/
def pyInt (x : ℝ) : ℤ :=
  if 0 ≤ x then ⌊x⌋ else -⌊-x⌋

/-- Python 3 `round(x)` on a float: round half to even, otherwise to the
nearest integer. -/
def pyRound (x : ℝ) : ℤ :=
  if x - ⌊x⌋ = 1/2 then (if 2 ∣ ⌊x⌋ then ⌊x⌋ else ⌊x⌋ + 1) else round x

/-- Interface for the standard-normal primitives `stats.norm.cdf` and
`stats.norm.ppf` used by the source: the properties listed here are the
facts about the standard normal distribution that the engine's claims
rest on, and they hold for any symmetric unimodal location family. -/
structure Gauss where
  cdf : ℝ → ℝ
  ppf : ℝ → ℝ
  mono : StrictMono cdf
  sym : ∀ x, cdf (-x) = 1 - cdf x
  pos : ∀ x, 0 < cdf x
  lt_one : ∀ x, cdf x < 1
  inv : ∀ p, 0 < p → p < 1 → cdf (ppf p) = p
  slide : ∀ c x y, 0 ≤ c → 0 ≤ x → x ≤ y →
    cdf (x - c) + cdf (-x - c) ≤ cdf (y - c) + cdf (-y - c)

/-- Lines 8–29 of the source: `calculate_power(n_total, treatment_pct, mde,
alpha)`.  Returns the triple `(power, n1, n2)`. -/
def calculate_power (G : Gauss) (n_total : ℤ) (treatment_pct mde alpha : ℝ) :
    ℝ × ℤ × ℤ :=
  let n1 : ℤ := pyInt ((n_total : ℝ) * treatment_pct / 100)
  let n2 : ℤ := n_total - n1
  if n1 = 0 ∨ n2 = 0 then (0, n1, n2)
  else
    let p_pooled : ℝ := 0.5
    let se : ℝ := Real.sqrt (p_pooled * (1 - p_pooled) * (1/(n1 : ℝ) + 1/(n2 : ℝ)))
    let z_alpha : ℝ := G.ppf (1 - alpha/2)
    (1 - G.cdf (z_alpha - mde/se) + G.cdf (-z_alpha - mde/se), n1, n2)

/-- Lines 31–53 of the source: `calculate_mde(n_total, treatment_pct, power,
alpha)`.  Returns the triple `(mde, n1, n2)`. -/
def calculate_mde (G : Gauss) (n_total : ℤ) (treatment_pct power alpha : ℝ) :
    ℝ × ℤ × ℤ :=
  let n1 : ℤ := pyInt ((n_total : ℝ) * treatment_pct / 100)
  let n2 : ℤ := n_total - n1
  if n1 = 0 ∨ n2 = 0 then (1, n1, n2)
  else
    let p_pooled : ℝ := 0.5
    let se : ℝ := Real.sqrt (p_pooled * (1 - p_pooled) * (1/(n1 : ℝ) + 1/(n2 : ℝ)))
    let z_alpha : ℝ := G.ppf (1 - alpha/2)
    let z_beta : ℝ := G.ppf power
    ((z_alpha + z_beta) * se, n1, n2)

/-- Lines 55–81 of the source: `calculate_sample_size(mde, power,
treatment_pct, alpha)`.  Returns the triple `(n_total, n1, n2)`. -/
def calculate_sample_size (G : Gauss) (mde power treatment_pct alpha : ℝ) :
    ℤ × ℤ × ℤ :=
  let z_alpha : ℝ := G.ppf (1 - alpha/2)
  let z_beta : ℝ := G.ppf power
  let p_pooled : ℝ := 0.5
  let treatment_prop : ℝ := treatment_pct / 100
  let term1 : ℝ := (z_alpha + z_beta)^2
  let term2 : ℝ := p_pooled * (1 - p_pooled)
  let term3 : ℝ := 1 / (treatment_prop * (1 - treatment_prop))
  let n_total : ℝ := term1 * term2 * term3 / mde^2
  let n1 : ℤ := pyRound (n_total * treatment_prop)
  let n2 : ℤ := pyRound (n_total * (1 - treatment_prop))
  (n1 + n2, n1, n2)

/-- The raw (pre-rounding) closed-form total sample size, written exactly as
the specification states it: `(zAlpha+zBeta)^2 * 0.25 / (frac*(1-frac)) /
mde^2`.  Used to compare the source's computation against the spec's words. -/
def nTotal_raw (G : Gauss) (mde power treatment_pct alpha : ℝ) : ℝ :=
  (G.ppf (1 - alpha/2) + G.ppf power)^2 * 0.25 /
    (treatment_pct/100 * (1 - treatment_pct/100)) / mde^2

/-- Python exception kinds that the arithmetic in `calculate_sample_size`
can raise. -/
inductive PyErr
  | zeroDivisionError
  | valueError
  | overflowError
deriving DecidableEq

/-- Lines 55–81 of the source including Python's float error behaviour:
division by `0.0` raises `ZeroDivisionError` (line 73 when
`treatment_prop*(1-treatment_prop) == 0`, line 74 when `mde == 0`);
`stats.norm.ppf` returns `nan` outside `[0,1]` and `±inf` at the endpoints,
and `round` then raises `ValueError` on `nan` or `OverflowError` on `±inf`
(line 77).  There is no input validation in the source, and no
`DomainError`. -/
def calculate_sample_size_run (G : Gauss) (mde power treatment_pct alpha : ℝ) :
    Except PyErr (ℤ × ℤ × ℤ) :=
  let treatment_prop : ℝ := treatment_pct / 100
  if treatment_prop * (1 - treatment_prop) = 0 then .error .zeroDivisionError
  else if mde = 0 then .error .zeroDivisionError
  else if 1 - alpha/2 < 0 ∨ 1 < 1 - alpha/2 ∨ power < 0 ∨ 1 < power then
    .error .valueError
  else if 1 - alpha/2 = 0 ∨ 1 - alpha/2 = 1 ∨ power = 0 ∨ power = 1 then
    if (1 - alpha/2 = 0 ∧ power = 1) ∨ (1 - alpha/2 = 1 ∧ power = 0) then
      .error .valueError
    else .error .overflowError
  else .ok (calculate_sample_size G mde power treatment_pct alpha)

/-- Lines 83–118 of the source, `"MDE"` branch of
`generate_treatment_comparison_data`: for each `tp` in
`range(5, 96, 5)` record `(treatment_pct, mde*100, treatment_size,
control_size)`. -/
def generate_treatment_comparison_data_mde (G : Gauss) (n_total : ℤ)
    (power alpha : ℝ) : List (ℕ × ℝ × ℤ × ℤ) :=
  (List.range' 5 19 5).map (fun (tp : ℕ) =>
    let r := calculate_mde G n_total (tp : ℝ) power alpha
    (tp, r.1 * 100, r.2.1, r.2.2))

/-- Lines 381–383 of the source: `idxmin` over the `"mde"` column picks the
first row attaining the minimum.  `isFirstMinIdx l i` says index `i` is
that row for the column `l`. -/
def isFirstMinIdx (l : List ℝ) (i : ℕ) : Prop :=
  i < l.length ∧ (∀ j, j < l.length → l.getD i 0 ≤ l.getD j 0) ∧
    (∀ j, j < i → l.getD i 0 < l.getD j 0)

/-- The cdf of a symmetric distribution takes the value 1/2 at the origin. -/
theorem Gauss.cdf_zero (G : Gauss) : G.cdf 0 = 1/2 := by
  have h := G.sym 0
  rw [neg_zero] at h
  linarith

/-- `ppf` is strictly monotone on (0,1). -/
theorem Gauss.ppf_lt_ppf (G : Gauss) {p q : ℝ} (hp : 0 < p) (hq : q < 1)
    (hpq : p < q) : G.ppf p < G.ppf q := by
  have h1 : G.cdf (G.ppf p) = p := G.inv p hp (lt_trans hpq hq)
  have h2 : G.cdf (G.ppf q) = q := G.inv q (lt_trans hp hpq) hq
  have : G.cdf (G.ppf p) < G.cdf (G.ppf q) := by rw [h1, h2]; exact hpq
  exact G.mono.lt_iff_lt.mp this

/-- The median of a symmetric distribution is 0. -/
theorem Gauss.ppf_half (G : Gauss) : G.ppf (1/2) = 0 := by
  have h1 : G.cdf (G.ppf (1/2)) = 1/2 := G.inv _ (by norm_num) (by norm_num)
  have h2 : G.cdf (G.ppf (1/2)) = G.cdf 0 := by rw [h1, G.cdf_zero]
  exact G.mono.injective h2

/-- Quantiles above the median are positive. -/
theorem Gauss.ppf_pos (G : Gauss) {p : ℝ} (h : 1/2 < p) (h1 : p < 1) :
    0 < G.ppf p := by
  have := G.ppf_lt_ppf (p := 1/2) (q := p) (by norm_num) h1 h
  rwa [G.ppf_half] at this

/-- Quantiles at or above the median are nonnegative. -/
theorem Gauss.ppf_nonneg (G : Gauss) {p : ℝ} (h : 1/2 ≤ p) (h1 : p < 1) :
    0 ≤ G.ppf p := by
  rcases eq_or_lt_of_le h with h2 | h2
  · rw [← h2, G.ppf_half]
  · exact (G.ppf_pos h2 h1).le

/-- `1 - cdf x = cdf (-x)` (restatement of symmetry). -/
theorem Gauss.one_sub_cdf (G : Gauss) (x : ℝ) : 1 - G.cdf x = G.cdf (-x) :=
  (G.sym x).symm

/-- Cdf of the standard logistic distribution. -/
def logisticCdf (x : ℝ) : ℝ := 1 / (1 + Real.exp (-x))

/-- Quantile function of the standard logistic distribution. -/
def logisticPpf (p : ℝ) : ℝ := Real.log (p / (1 - p))

theorem logisticCdf_pos (x : ℝ) : 0 < logisticCdf x := by
  unfold logisticCdf
  positivity

theorem logisticCdf_lt_one (x : ℝ) : logisticCdf x < 1 := by
  unfold logisticCdf
  rw [div_lt_one (by positivity)]
  linarith [Real.exp_pos (-x)]

theorem logisticCdf_strictMono : StrictMono logisticCdf := by
  intro a b hab
  unfold logisticCdf
  have h1 : Real.exp (-b) < Real.exp (-a) := Real.exp_lt_exp.mpr (by linarith)
  rw [div_lt_div_iff (by positivity) (by positivity)]
  linarith

theorem logisticCdf_sym (x : ℝ) : logisticCdf (-x) = 1 - logisticCdf x := by
  unfold logisticCdf
  rw [neg_neg, Real.exp_neg]
  have h1 : Real.exp x ≠ 0 := (Real.exp_pos x).ne'
  have h2 : (0:ℝ) < 1 + Real.exp x := by positivity
  have h3 : (0:ℝ) < 1 + (Real.exp x)⁻¹ := by positivity
  field_simp
  ring

theorem logisticCdf_inv (p : ℝ) (h0 : 0 < p) (h1 : p < 1) :
    logisticCdf (logisticPpf p) = p := by
  unfold logisticCdf logisticPpf
  have hp2 : (0:ℝ) < p / (1 - p) := div_pos h0 (by linarith)
  rw [← Real.log_inv, Real.exp_log (inv_pos.mpr hp2)]
  rw [inv_div]
  have h2 : (0:ℝ) < 1 - p := by linarith
  field_simp

theorem logisticCdf_slide (c x y : ℝ) (hc : 0 ≤ c) (hx : 0 ≤ x) (hxy : x ≤ y) :
    logisticCdf (x - c) + logisticCdf (-x - c) ≤
      logisticCdf (y - c) + logisticCdf (-y - c) := by
  have hg1 : (1:ℝ) ≤ Real.exp c := by
    calc (1:ℝ) = Real.exp 0 := Real.exp_zero.symm
      _ ≤ Real.exp c := Real.exp_le_exp.mpr hc
  set g := Real.exp c with hg
  set u := Real.exp (-x) with hu
  set v := Real.exp (-y) with hv
  have hgpos : 0 < g := Real.exp_pos c
  have hupos : 0 < u := Real.exp_pos _
  have hvpos : 0 < v := Real.exp_pos _
  have hvu : v ≤ u := Real.exp_le_exp.mpr (by linarith)
  have huv1 : u * v ≤ 1 := by
    rw [hu, hv, ← Real.exp_add]
    calc Real.exp (-x + -y) ≤ Real.exp 0 := Real.exp_le_exp.mpr (by linarith)
      _ = 1 := Real.exp_zero
  have hxinv : Real.exp x = u⁻¹ := by rw [hu, ← Real.exp_neg, neg_neg]
  have hyinv : Real.exp y = v⁻¹ := by rw [hv, ← Real.exp_neg, neg_neg]
  have e1 : logisticCdf (x - c) = 1 / (1 + g * u) := by
    unfold logisticCdf
    rw [show -(x - c) = c + -x by ring, Real.exp_add, ← hg, ← hu]
  have e2 : logisticCdf (-x - c) = u / (u + g) := by
    unfold logisticCdf
    rw [show -(-x - c) = x + c by ring, Real.exp_add, hxinv, ← hg]
    rw [div_eq_div_iff (by positivity) (by positivity)]
    field_simp
  have e3 : logisticCdf (y - c) = 1 / (1 + g * v) := by
    unfold logisticCdf
    rw [show -(y - c) = c + -y by ring, Real.exp_add, ← hg, ← hv]
  have e4 : logisticCdf (-y - c) = v / (v + g) := by
    unfold logisticCdf
    rw [show -(-y - c) = y + c by ring, Real.exp_add, hyinv, ← hg]
    rw [div_eq_div_iff (by positivity) (by positivity)]
    field_simp
  rw [e1, e2, e3, e4]
  have key : (1 / (1 + g * v) + v / (v + g)) - (1 / (1 + g * u) + u / (u + g))
      = (g * (u - v) * ((g^2 - 1) * (1 - u * v))) /
        ((1 + g * u) * (1 + g * v) * ((u + g) * (v + g))) := by
    field_simp
    ring
  have hnum : 0 ≤ g * (u - v) * ((g^2 - 1) * (1 - u * v)) := by
    apply mul_nonneg (mul_nonneg hgpos.le (by linarith))
    apply mul_nonneg (by nlinarith) (by linarith)
  have hden : 0 < (1 + g * u) * (1 + g * v) * ((u + g) * (v + g)) := by positivity
  have := div_nonneg hnum hden.le
  linarith [key ▸ this]

/-- A concrete model of the `Gauss` interface: the standard logistic
distribution, which like the standard normal is symmetric and unimodal
and hence satisfies every interface property. -/
def logisticGauss : Gauss where
  cdf := logisticCdf
  ppf := logisticPpf
  mono := logisticCdf_strictMono
  sym := logisticCdf_sym
  pos := logisticCdf_pos
  lt_one := logisticCdf_lt_one
  inv := logisticCdf_inv
  slide := logisticCdf_slide

/-- The source's `n_total` (line 74) coincides with the spec's closed form,
and the returned triple is exactly the rounded group sizes with the total
recomputed as their sum. -/
theorem calculate_sample_size_eq (G : Gauss) (mde power treatment_pct alpha : ℝ) :
    calculate_sample_size G mde power treatment_pct alpha =
      (pyRound (nTotal_raw G mde power treatment_pct alpha * (treatment_pct/100)) +
         pyRound (nTotal_raw G mde power treatment_pct alpha * (1 - treatment_pct/100)),
       pyRound (nTotal_raw G mde power treatment_pct alpha * (treatment_pct/100)),
       pyRound (nTotal_raw G mde power treatment_pct alpha * (1 - treatment_pct/100))) := by
  have h : (G.ppf (1 - alpha/2) + G.ppf power)^2 * ((0.5:ℝ) * (1 - 0.5)) *
      (1 / (treatment_pct/100 * (1 - treatment_pct/100))) / mde^2
      = nTotal_raw G mde power treatment_pct alpha := by
    unfold nTotal_raw
    ring
  simp only [calculate_sample_size]
  rw [h]

/-- C2: for every result of `calculate_power`, `calculate_mde` and
`calculate_sample_size`, the returned treatment count plus the returned
control count equals the result's total sample size exactly. -/
theorem group_size_invariant (G : Gauss) (n : ℤ)
    (pct mde power alpha mde2 power2 pct2 alpha2 : ℝ) :
    (calculate_power G n pct mde alpha).2.1 +
        (calculate_power G n pct mde alpha).2.2 = n ∧
      (calculate_mde G n pct power alpha).2.1 +
        (calculate_mde G n pct power alpha).2.2 = n ∧
      (calculate_sample_size G mde2 power2 pct2 alpha2).1 =
        (calculate_sample_size G mde2 power2 pct2 alpha2).2.1 +
          (calculate_sample_size G mde2 power2 pct2 alpha2).2.2 := by
  refine ⟨?_, ?_, ?_⟩
  · simp only [calculate_power]
    split <;> simp
  · simp only [calculate_mde]
    split <;> simp
  · simp only [calculate_sample_size]

/-- C3: `calculate_sample_size` computes the closed-form raw total, rounds
each group separately, and returns the total recomputed as `n1 + n2` — which
does differ from `round(nTotal_raw)` on some raw totals. -/
theorem sample_size_rounding_policy (G : Gauss) (mde power pct alpha : ℝ) :
    calculate_sample_size G mde power pct alpha =
        (pyRound (nTotal_raw G mde power pct alpha * (pct/100)) +
           pyRound (nTotal_raw G mde power pct alpha * (1 - pct/100)),
         pyRound (nTotal_raw G mde power pct alpha * (pct/100)),
         pyRound (nTotal_raw G mde power pct alpha * (1 - pct/100))) ∧
      pyRound ((13/5 : ℝ) * (1/2)) + pyRound ((13/5 : ℝ) * (1/2)) ≠
        pyRound (13/5 : ℝ) := by
  refine ⟨calculate_sample_size_eq G mde power pct alpha, ?_⟩
  have h1 : pyRound ((13/5 : ℝ) * (1/2)) = 1 := by
    unfold pyRound
    have hf : ⌊(13/5 : ℝ) * (1/2)⌋ = 1 := by
      rw [Int.floor_eq_iff]
      norm_num
    rw [hf]
    rw [if_neg (by norm_num), round_eq]
    rw [Int.floor_eq_iff]
    norm_num
  have h2 : pyRound ((13/5 : ℝ)) = 3 := by
    unfold pyRound
    have hf : ⌊(13/5 : ℝ)⌋ = 2 := by
      rw [Int.floor_eq_iff]
      norm_num
    rw [hf]
    rw [if_neg (by norm_num), round_eq]
    rw [Int.floor_eq_iff]
    norm_num
  rw [h1, h2]
  norm_num

/-- C7: swapping the allocation (`pct` versus `100 - pct`) yields the same
total sample size with the treatment and control group sizes exchanged. -/
theorem allocation_symmetry (G : Gauss) (mde power pct alpha : ℝ) :
    calculate_sample_size G mde power (100 - pct) alpha =
      ((calculate_sample_size G mde power pct alpha).1,
       (calculate_sample_size G mde power pct alpha).2.2,
       (calculate_sample_size G mde power pct alpha).2.1) := by
  rw [calculate_sample_size_eq, calculate_sample_size_eq]
  have hraw : nTotal_raw G mde power (100 - pct) alpha =
      nTotal_raw G mde power pct alpha := by
    unfold nTotal_raw
    ring_nf
  have h1 : (100 - pct)/100 = 1 - pct/100 := by ring
  have h2 : 1 - (100 - pct)/100 = pct/(100:ℝ) := by ring
  rw [hraw, h2, h1]
  exact Prod.ext (add_comm _ _) rfl

/-- C5: whenever a truncated group is empty, `calculate_power` returns
power 0 and `calculate_mde` returns the sentinel mde 1, with the (possibly
zero) group sizes, instead of raising. -/
theorem degenerate_design (G : Gauss) (n : ℤ) (pct mde power alpha : ℝ)
    (h : pyInt ((n : ℝ) * pct / 100) = 0 ∨ n - pyInt ((n : ℝ) * pct / 100) = 0) :
    calculate_power G n pct mde alpha
        = (0, pyInt ((n : ℝ) * pct / 100), n - pyInt ((n : ℝ) * pct / 100)) ∧
      calculate_mde G n pct power alpha
        = (1, pyInt ((n : ℝ) * pct / 100), n - pyInt ((n : ℝ) * pct / 100)) := by
  constructor
  · simp only [calculate_power]
    rw [if_pos h]
  · simp only [calculate_mde]
    rw [if_pos h]

/-- C5 witness: the spec's boundary instance `nTotal=20`, `fracPercent=1`,
`mde=0.1`, `alpha=0.05` (and the mde-mode analogue) returns
`power=0, n1=0, n2=20`. -/
theorem degenerate_design_witness :
    calculate_power logisticGauss 20 1 (1/10) (1/20) = (0, 0, 20) ∧
      calculate_mde logisticGauss 20 1 (4/5) (1/20) = (1, 0, 20) := by
  have h0 : pyInt (((20 : ℤ) : ℝ) * 1 / 100) = 0 := by
    unfold pyInt
    rw [if_pos (by norm_num)]
    rw [Int.floor_eq_iff]
    norm_num
  have h := degenerate_design logisticGauss 20 1 (1/10) (4/5) (1/20) (Or.inl h0)
  rw [h.1, h.2, h0]
  norm_num

/-- C10: under the interface precondition `nTotal ≥ 1` and
`fracPercent ∈ [1,99]`, the control group is never empty, so the `n2 == 0`
half of the degenerate-group guard is unreachable: the guard fires exactly
when the treatment group is empty. -/
theorem control_group_positive (G : Gauss) (n : ℤ) (pct mde power alpha : ℝ)
    (hn : 1 ≤ n) (h1 : 1 ≤ pct) (h2 : pct ≤ 99) :
    1 ≤ (calculate_power G n pct mde alpha).2.2 ∧
      1 ≤ (calculate_mde G n pct power alpha).2.2 ∧
      ((pyInt ((n : ℝ) * pct / 100) = 0 ∨ n - pyInt ((n : ℝ) * pct / 100) = 0) ↔
        pyInt ((n : ℝ) * pct / 100) = 0) := by
  have hnR : (1 : ℝ) ≤ (n : ℝ) := by exact_mod_cast hn
  have harg0 : (0 : ℝ) ≤ (n : ℝ) * pct / 100 := by
    apply div_nonneg _ (by norm_num)
    nlinarith
  have hlt : (n : ℝ) * pct / 100 < (n : ℝ) := by
    rw [div_lt_iff (by norm_num)]
    nlinarith
  have hfloor : pyInt ((n : ℝ) * pct / 100) ≤ n - 1 := by
    unfold pyInt
    rw [if_pos harg0]
    have := Int.floor_lt.mpr (by exact_mod_cast hlt)
    omega
  have hn2 : 1 ≤ n - pyInt ((n : ℝ) * pct / 100) := by omega
  refine ⟨?_, ?_, ?_⟩
  · simp only [calculate_power]
    split <;> simpa using hn2
  · simp only [calculate_mde]
    split <;> simpa using hn2
  · constructor
    · rintro (h | h)
      · exact h
      · omega
    · exact Or.inl

/-- C10 witness: at `nTotal=1`, `fracPercent=1` the control group is still
nonempty. -/
theorem control_group_positive_witness :
    1 ≤ (calculate_power logisticGauss 1 1 (1/10) (1/20)).2.2 ∧
      1 ≤ (calculate_mde logisticGauss 1 1 (4/5) (1/20)).2.2 ∧
      ((pyInt (((1 : ℤ) : ℝ) * 1 / 100) = 0 ∨
          1 - pyInt (((1 : ℤ) : ℝ) * 1 / 100) = 0) ↔
        pyInt (((1 : ℤ) : ℝ) * 1 / 100) = 0) :=
  control_group_positive logisticGauss 1 1 (1/10) (4/5) (1/20)
    (by norm_num) (by norm_num) (by norm_num)

/-- C4 counterexample: with `mde = -1/10 ≤ 0` (and all other inputs valid)
`calculate_sample_size` returns a normal result; it raises nothing, so in
particular no `DomainError`. -/
theorem no_domain_error_counterexample :
    calculate_sample_size_run logisticGauss (-(1/10)) (4/5) 50 (1/20) =
      .ok (calculate_sample_size logisticGauss (-(1/10)) (4/5) 50 (1/20)) := by
  unfold calculate_sample_size_run
  norm_num

/-- C4 amended: the source performs no domain validation and defines no
`DomainError`.  It fails with `ZeroDivisionError` when the allocation
product `frac*(1-frac)` is zero or when `mde = 0`; it fails with
`ValueError` (rounding a nan from the inverse normal) when `power` or
`1 - alpha/2` lies outside `[0,1]`; and for `mde < 0` it returns the same
normal result as for `-mde`. -/
theorem sample_size_error_behaviour (G : Gauss) (mde power pct alpha : ℝ) :
    (pct/100 * (1 - pct/100) = 0 →
        calculate_sample_size_run G mde power pct alpha =
          .error .zeroDivisionError) ∧
      (pct/100 * (1 - pct/100) ≠ 0 → mde = 0 →
        calculate_sample_size_run G mde power pct alpha =
          .error .zeroDivisionError) ∧
      (pct/100 * (1 - pct/100) ≠ 0 → mde ≠ 0 →
        (1 - alpha/2 < 0 ∨ 1 < 1 - alpha/2 ∨ power < 0 ∨ 1 < power) →
        calculate_sample_size_run G mde power pct alpha = .error .valueError) ∧
      (mde < 0 →
        calculate_sample_size_run G mde power pct alpha =
          calculate_sample_size_run G (-mde) power pct alpha) := by
  refine ⟨?_, ?_, ?_, ?_⟩
  · intro hf
    simp only [calculate_sample_size_run]
    rw [if_pos hf]
  · intro hf hm
    simp only [calculate_sample_size_run]
    rw [if_neg hf, if_pos hm]
  · intro hf hm hdom
    simp only [calculate_sample_size_run]
    rw [if_neg hf, if_neg hm, if_pos hdom]
  · intro hm
    have hpay : calculate_sample_size G mde power pct alpha =
        calculate_sample_size G (-mde) power pct alpha := by
      simp only [calculate_sample_size, neg_sq]
    simp only [calculate_sample_size_run]
    rw [hpay]
    simp only [neg_eq_zero]

/-- C4 amended witness: concrete instances of each failure mode and of the
`mde < 0` behaviour. -/
theorem sample_size_error_behaviour_witness :
    calculate_sample_size_run logisticGauss 1 (4/5) 0 (1/20) =
        .error .zeroDivisionError ∧
      calculate_sample_size_run logisticGauss 0 (4/5) 50 (1/20) =
        .error .zeroDivisionError ∧
      calculate_sample_size_run logisticGauss 1 2 50 (1/20) =
        .error .valueError ∧
      calculate_sample_size_run logisticGauss (-1) (4/5) 50 (1/20) =
        calculate_sample_size_run logisticGauss 1 (4/5) 50 (1/20) := by
  refine ⟨?_, ?_, ?_, ?_⟩
  · exact (sample_size_error_behaviour logisticGauss 1 (4/5) 0 (1/20)).1
      (by norm_num)
  · exact (sample_size_error_behaviour logisticGauss 0 (4/5) 50 (1/20)).2.1
      (by norm_num) rfl
  · exact (sample_size_error_behaviour logisticGauss 1 2 50 (1/20)).2.2.1
      (by norm_num) (by norm_num) (by norm_num)
  · have h := (sample_size_error_behaviour logisticGauss (-1) (4/5) 50
      (1/20)).2.2.2 (by norm_num)
    simpa using h

/-- C9 counterexample: for `power = 0.05 ∈ (0,1)` (below one half) and
`alpha = 0.5`, with both groups nonempty, `calculate_mde` returns a strictly
negative mde. -/
theorem mde_negative_counterexample :
    (calculate_mde logisticGauss 100 50 (1/20) (1/2)).1 < 0 := by
  have hn1 : pyInt (((100 : ℤ) : ℝ) * 50 / 100) = 50 := by
    unfold pyInt
    rw [if_pos (by norm_num)]
    rw [Int.floor_eq_iff]
    norm_num
  simp only [calculate_mde]
  rw [hn1]
  rw [if_neg (by norm_num)]
  have hppf : logisticGauss.ppf = logisticPpf := rfl
  have hppf1 : logisticPpf (1 - 1/2/2) = Real.log 3 := by
    unfold logisticPpf
    norm_num
  have hppf2 : logisticPpf (1/20) = Real.log (1/19) := by
    unfold logisticPpf
    norm_num
  simp only [hppf, hppf1, hppf2]
  have hlog : Real.log 3 + Real.log (1/19) < 0 := by
    rw [← Real.log_mul (by norm_num) (by norm_num)]
    apply Real.log_neg <;> norm_num
  have hsqrt : 0 < Real.sqrt ((0.5 : ℝ) * (1 - 0.5) *
      (1/((50 : ℤ) : ℝ) + 1/(((100 : ℤ) - 50 : ℤ) : ℝ))) := by
    apply Real.sqrt_pos.mpr
    norm_num
  exact mul_neg_of_neg_of_pos hlog hsqrt

/-- C9 amended: for valid inputs with target power at least one half (the
range the source UI exposes is `[0.5, 0.99]`), the mde returned by
`calculate_mde` is nonnegative; for `power < 1/2` it can be negative. -/
theorem mde_nonneg (G : Gauss) (n : ℤ) (pct power alpha : ℝ)
    (hp : 1/2 ≤ power) (hp1 : power < 1) (ha : 0 < alpha) (ha1 : alpha < 1) :
    0 ≤ (calculate_mde G n pct power alpha).1 := by
  simp only [calculate_mde]
  split
  · norm_num
  · have hza : 0 < G.ppf (1 - alpha/2) := G.ppf_pos (by linarith) (by linarith)
    have hzb : 0 ≤ G.ppf power := G.ppf_nonneg hp hp1
    exact mul_nonneg (by linarith) (Real.sqrt_nonneg _)

/-- C9 amended witness: a nonnegative mde at a concrete valid input. -/
theorem mde_nonneg_witness :
    0 ≤ (calculate_mde logisticGauss 100 50 (4/5) (1/20)).1 :=
  mde_nonneg logisticGauss 100 50 (4/5) (1/20)
    (by norm_num) (by norm_num) (by norm_num) (by norm_num)

/-- The power expression of line 28 rewritten through symmetry:
`1 - cdf(z - x) + cdf(-z - x) = cdf(x - z) + cdf(-x - z)`. -/
theorem Gauss.power_formula (G : Gauss) (z x : ℝ) :
    1 - G.cdf (z - x) + G.cdf (-z - x) = G.cdf (x - z) + G.cdf (-x - z) := by
  rw [show z - x = -(x - z) by ring, G.sym, show -z - x = -x - z by ring]
  ring

/-- The power expression is monotone in the standardised effect `x`. -/
theorem Gauss.power_le_power (G : Gauss) {z x y : ℝ} (hz : 0 ≤ z) (hx : 0 ≤ x)
    (hxy : x ≤ y) :
    1 - G.cdf (z - x) + G.cdf (-z - x) ≤ 1 - G.cdf (z - y) + G.cdf (-z - y) := by
  rw [G.power_formula, G.power_formula]
  exact G.slide z x y hz hx hxy

/-- The power expression is antitone in the standard error. -/
theorem Gauss.power_anti_se (G : Gauss) {z mde s t : ℝ} (hz : 0 ≤ z)
    (hmde : 0 < mde) (hs : 0 < s) (hst : s ≤ t) :
    1 - G.cdf (z - mde/t) + G.cdf (-z - mde/t) ≤
      1 - G.cdf (z - mde/s) + G.cdf (-z - mde/s) := by
  have ht : 0 < t := lt_of_lt_of_le hs hst
  apply G.power_le_power hz (by positivity)
  gcongr

/-- The power expression is monotone in the effect size for a fixed
standard error. -/
theorem Gauss.power_mono_mde (G : Gauss) {z mde1 mde2 s : ℝ} (hz : 0 ≤ z)
    (h1 : 0 < mde1) (h12 : mde1 ≤ mde2) (hs : 0 < s) :
    1 - G.cdf (z - mde1/s) + G.cdf (-z - mde1/s) ≤
      1 - G.cdf (z - mde2/s) + G.cdf (-z - mde2/s) := by
  apply G.power_le_power hz (by positivity)
  gcongr

/-- The power expression always lies above 0. -/
theorem Gauss.power_expr_nonneg (G : Gauss) (a b : ℝ) :
    0 ≤ 1 - G.cdf a + G.cdf b := by
  have := G.lt_one a
  have := G.pos b
  linarith

/-- C8: holding `frac ∈ (0,100)`, `mde > 0` and `alpha ∈ (0,1)` fixed, the
power returned by `calculate_power` is non-decreasing in the (positive)
total sample size; and holding the total, `frac` and `alpha` fixed it is
non-decreasing in `mde > 0`. -/
theorem power_monotone (G : Gauss) (m n : ℤ) (pct mde mde1 mde2 alpha : ℝ)
    (hpct0 : 0 < pct) (hpct1 : pct < 100) (ha : 0 < alpha) (ha1 : alpha < 1) :
    (0 < mde → 0 < m → m ≤ n →
        (calculate_power G m pct mde alpha).1 ≤
          (calculate_power G n pct mde alpha).1) ∧
      (0 < mde1 → mde1 ≤ mde2 → 0 < n →
        (calculate_power G n pct mde1 alpha).1 ≤
          (calculate_power G n pct mde2 alpha).1) := by
  have hza : 0 ≤ G.ppf (1 - alpha/2) := G.ppf_nonneg (by linarith) (by linarith)
  have hpyInt : ∀ k : ℤ, 0 ≤ k → pyInt ((k : ℝ) * pct / 100) = ⌊(k : ℝ) * pct / 100⌋ := by
    intro k hk
    unfold pyInt
    rw [if_pos]
    apply div_nonneg _ (by norm_num)
    have : (0:ℝ) ≤ (k : ℝ) := by exact_mod_cast hk
    nlinarith
  have hn1nonneg : ∀ k : ℤ, 0 ≤ k → 0 ≤ pyInt ((k : ℝ) * pct / 100) := by
    intro k hk
    rw [hpyInt k hk]
    apply Int.floor_nonneg.mpr
    apply div_nonneg _ (by norm_num)
    have : (0:ℝ) ≤ (k : ℝ) := by exact_mod_cast hk
    nlinarith
  constructor
  · -- monotone in the total sample size
    intro hmde hm hmn
    have hn : 0 < n := lt_of_lt_of_le hm hmn
    have hmono1 : pyInt ((m : ℝ) * pct / 100) ≤ pyInt ((n : ℝ) * pct / 100) := by
      rw [hpyInt m hm.le, hpyInt n hn.le]
      apply Int.floor_le_floor
      have : (m : ℝ) ≤ (n : ℝ) := by exact_mod_cast hmn
      have h0 : (0:ℝ) ≤ pct / 100 := by positivity
      calc (m : ℝ) * pct / 100 = (m : ℝ) * (pct / 100) := by ring
        _ ≤ (n : ℝ) * (pct / 100) := by nlinarith
        _ = (n : ℝ) * pct / 100 := by ring
    have hmono2 : m - pyInt ((m : ℝ) * pct / 100) ≤ n - pyInt ((n : ℝ) * pct / 100) := by
      rw [hpyInt m hm.le, hpyInt n hn.le]
      have hkey : ⌊(n : ℝ) * pct / 100⌋ ≤ ⌊(m : ℝ) * pct / 100⌋ + (n - m) := by
        rw [← Int.floor_add_int]
        apply Int.floor_le_floor
        have hcast : ((n - m : ℤ) : ℝ) = (n : ℝ) - (m : ℝ) := by push_cast; ring
        rw [hcast]
        have h1 : (n : ℝ) * pct / 100 - (m : ℝ) * pct / 100
            = ((n : ℝ) - (m : ℝ)) * (pct / 100) := by ring
        have h2 : (0:ℝ) ≤ (n : ℝ) - (m : ℝ) := by
          have : (m : ℝ) ≤ (n : ℝ) := by exact_mod_cast hmn
          linarith
        nlinarith
      omega
    by_cases hdm : pyInt ((m : ℝ) * pct / 100) = 0 ∨ m - pyInt ((m : ℝ) * pct / 100) = 0
    · -- degenerate at m: power is 0 there, and power is nonnegative everywhere
      have hm0 : (calculate_power G m pct mde alpha).1 = 0 := by
        simp only [calculate_power]
        rw [if_pos hdm]
      rw [hm0]
      simp only [calculate_power]
      split
      · norm_num
      · exact G.power_expr_nonneg _ _
    · push_neg at hdm
      have h1m : 1 ≤ pyInt ((m : ℝ) * pct / 100) := by
        have := hn1nonneg m hm.le
        omega
      have hmR : (0:ℝ) < (m : ℝ) := by exact_mod_cast hm
      have hltm : (m : ℝ) * pct / 100 < (m : ℝ) := by
        rw [div_lt_iff (by norm_num)]
        nlinarith
      have hubm : pyInt ((m : ℝ) * pct / 100) ≤ m - 1 := by
        rw [hpyInt m hm.le]
        have := Int.floor_lt.mpr (by exact_mod_cast hltm)
        omega
      have h2m : 1 ≤ m - pyInt ((m : ℝ) * pct / 100) := by omega
      have hdn : ¬(pyInt ((n : ℝ) * pct / 100) = 0 ∨
          n - pyInt ((n : ℝ) * pct / 100) = 0) := by
        push_neg
        omega
      have hdm' : ¬(pyInt ((m : ℝ) * pct / 100) = 0 ∨
          m - pyInt ((m : ℝ) * pct / 100) = 0) := by
        push_neg
        exact hdm
      simp only [calculate_power]
      rw [if_neg hdm', if_neg hdn]
      dsimp only
      have c1m : (0:ℝ) < ((pyInt ((m : ℝ) * pct / 100) : ℤ) : ℝ) := by
        exact_mod_cast h1m
      have c2m : (0:ℝ) < (((m - pyInt ((m : ℝ) * pct / 100)) : ℤ) : ℝ) := by
        exact_mod_cast h2m
      have c1n : (0:ℝ) < ((pyInt ((n : ℝ) * pct / 100) : ℤ) : ℝ) := by
        have : (0:ℤ) < pyInt ((n : ℝ) * pct / 100) := by omega
        exact_mod_cast this
      have c2n : (0:ℝ) < (((n - pyInt ((n : ℝ) * pct / 100)) : ℤ) : ℝ) := by
        have : (0:ℤ) < n - pyInt ((n : ℝ) * pct / 100) := by omega
        exact_mod_cast this
      have hssn : (0:ℝ) < Real.sqrt ((0.5:ℝ) * (1 - 0.5) *
          (1/((pyInt ((n : ℝ) * pct / 100) : ℤ) : ℝ) +
            1/(((n - pyInt ((n : ℝ) * pct / 100)) : ℤ) : ℝ))) := by
        apply Real.sqrt_pos.mpr
        positivity
      have hse : Real.sqrt ((0.5:ℝ) * (1 - 0.5) *
          (1/((pyInt ((n : ℝ) * pct / 100) : ℤ) : ℝ) +
            1/(((n - pyInt ((n : ℝ) * pct / 100)) : ℤ) : ℝ))) ≤
          Real.sqrt ((0.5:ℝ) * (1 - 0.5) *
          (1/((pyInt ((m : ℝ) * pct / 100) : ℤ) : ℝ) +
            1/(((m - pyInt ((m : ℝ) * pct / 100)) : ℤ) : ℝ))) := by
        apply Real.sqrt_le_sqrt
        have d1 : ((pyInt ((m : ℝ) * pct / 100) : ℤ) : ℝ) ≤
            ((pyInt ((n : ℝ) * pct / 100) : ℤ) : ℝ) := by exact_mod_cast hmono1
        have d2 : (((m - pyInt ((m : ℝ) * pct / 100)) : ℤ) : ℝ) ≤
            (((n - pyInt ((n : ℝ) * pct / 100)) : ℤ) : ℝ) := by exact_mod_cast hmono2
        gcongr
      exact G.power_anti_se hza hmde hssn hse
  · -- monotone in the effect size
    intro h1 h12 h0n
    by_cases hd : pyInt ((n : ℝ) * pct / 100) = 0 ∨
        n - pyInt ((n : ℝ) * pct / 100) = 0
    · simp only [calculate_power]
      rw [if_pos hd, if_pos hd]
    · have hnR : (0:ℝ) < (n : ℝ) := by exact_mod_cast h0n
      have hlt : (n : ℝ) * pct / 100 < (n : ℝ) := by
        rw [div_lt_iff (by norm_num)]
        nlinarith
      have hub : pyInt ((n : ℝ) * pct / 100) ≤ n - 1 := by
        rw [hpyInt n h0n.le]
        have := Int.floor_lt.mpr (by exact_mod_cast hlt)
        omega
      push_neg at hd
      have e1 : (0:ℤ) < pyInt ((n : ℝ) * pct / 100) := by
        have := hn1nonneg n h0n.le
        omega
      have e2 : (0:ℤ) < n - pyInt ((n : ℝ) * pct / 100) := by omega
      have hd' : ¬(pyInt ((n : ℝ) * pct / 100) = 0 ∨
          n - pyInt ((n : ℝ) * pct / 100) = 0) := by
        push_neg
        exact hd
      simp only [calculate_power]
      rw [if_neg hd', if_neg hd']
      dsimp only
      have c1 : (0:ℝ) < ((pyInt ((n : ℝ) * pct / 100) : ℤ) : ℝ) := by
        exact_mod_cast e1
      have c2 : (0:ℝ) < (((n - pyInt ((n : ℝ) * pct / 100)) : ℤ) : ℝ) := by
        exact_mod_cast e2
      have hs : (0:ℝ) < Real.sqrt ((0.5:ℝ) * (1 - 0.5) *
          (1/((pyInt ((n : ℝ) * pct / 100) : ℤ) : ℝ) +
            1/(((n - pyInt ((n : ℝ) * pct / 100)) : ℤ) : ℝ))) := by
        apply Real.sqrt_pos.mpr
        positivity
      exact G.power_mono_mde hza h1 h12 hs

/-- C8 witness: power at total 10 is at most power at total 20, and power
at mde 0.1 is at most power at mde 0.2, at concrete valid parameters. -/
theorem power_monotone_witness :
    (calculate_power logisticGauss 10 50 (1/10) (1/20)).1 ≤
        (calculate_power logisticGauss 20 50 (1/10) (1/20)).1 ∧
      (calculate_power logisticGauss 20 50 (1/10) (1/20)).1 ≤
        (calculate_power logisticGauss 20 50 (1/5) (1/20)).1 := by
  have h := power_monotone logisticGauss 10 20 50 (1/10) (1/10) (1/5) (1/20)
    (by norm_num) (by norm_num) (by norm_num) (by norm_num)
  exact ⟨h.1 (by norm_num) (by norm_num) (by norm_num),
    h.2 (by norm_num) (by norm_num) (by norm_num)⟩

/-- `pyInt` is the identity on (casts of) integers. -/
theorem pyInt_intCast (k : ℤ) : pyInt ((k : ℝ)) = k := by
  unfold pyInt
  by_cases h : (0:ℝ) ≤ (k : ℝ)
  · rw [if_pos h, Int.floor_intCast]
  · rw [if_neg h, ← Int.cast_neg, Int.floor_intCast, neg_neg]

/-- Evaluation of the mde formula on the sweep grid: at total 2000 the
truncated treatment group is exactly `20 * tp`. -/
theorem calculate_mde_2000_fst (G : Gauss) (tp : ℕ) (h1 : 1 ≤ tp) (h2 : tp ≤ 99) :
    (calculate_mde G 2000 (tp : ℝ) (4/5) (1/20)).1 =
      (G.ppf (1 - 1/20/2) + G.ppf (4/5)) *
        Real.sqrt ((0.5:ℝ) * (1 - 0.5) *
          (1/(20 * (tp : ℝ)) + 1/(2000 - 20 * (tp : ℝ)))) := by
  have harg : ((2000:ℤ) : ℝ) * (tp : ℝ) / 100 = ((20 * (tp : ℤ) : ℤ) : ℝ) := by
    push_cast
    ring
  have hn1 : pyInt (((2000:ℤ) : ℝ) * (tp : ℝ) / 100) = 20 * (tp : ℤ) := by
    rw [harg, pyInt_intCast]
  have htpZ1 : (1:ℤ) ≤ (tp : ℤ) := by exact_mod_cast h1
  have htpZ2 : (tp : ℤ) ≤ 99 := by exact_mod_cast h2
  simp only [calculate_mde]
  rw [hn1]
  rw [if_neg (by omega)]
  dsimp only
  have hc1 : ((20 * (tp : ℤ) : ℤ) : ℝ) = 20 * (tp : ℝ) := by
    push_cast
    ring
  have hc2 : (((2000 : ℤ) - 20 * (tp : ℤ) : ℤ) : ℝ) = 2000 - 20 * (tp : ℝ) := by
    push_cast
    ring
  rw [hc1, hc2]

/-- C6: the MDE-mode sweep at `nTotal=2000, power=0.8, alpha=0.05` has
exactly 19 points with treatment fractions `5,10,...,95` in ascending
order, each with positive mde, and the first row attaining the minimum mde
(`idxmin`) is index 9, whose treatment fraction is 50. -/
theorem sweep_grid (G : Gauss) :
    (generate_treatment_comparison_data_mde G 2000 (4/5) (1/20)).length = 19 ∧
      (generate_treatment_comparison_data_mde G 2000 (4/5) (1/20)).map Prod.fst =
        [5, 10, 15, 20, 25, 30, 35, 40, 45, 50, 55, 60, 65, 70, 75, 80, 85, 90, 95] ∧
      (∀ p ∈ generate_treatment_comparison_data_mde G 2000 (4/5) (1/20), 0 < p.2.1) ∧
      isFirstMinIdx ((generate_treatment_comparison_data_mde G 2000 (4/5) (1/20)).map
        (fun p => p.2.1)) 9 ∧
      ((generate_treatment_comparison_data_mde G 2000 (4/5) (1/20)).map Prod.fst).getD 9 0
        = 50 := by
  have hS : 0 < G.ppf (1 - 1/20/2) + G.ppf (4/5) := by
    have p1 := G.ppf_pos (p := 1 - 1/20/2) (by norm_num) (by norm_num)
    have p2 := G.ppf_pos (p := 4/5) (by norm_num) (by norm_num)
    linarith
  have hpos : ∀ a : ℕ, 1 ≤ a → a ≤ 99 →
      0 < (calculate_mde G 2000 ((a : ℕ) : ℝ) (4/5) (1/20)).1 := by
    intro a ha1 ha2
    rw [calculate_mde_2000_fst G a ha1 ha2]
    have haR1 : (1:ℝ) ≤ (a : ℝ) := by exact_mod_cast ha1
    have haR2 : (a : ℝ) ≤ 99 := by exact_mod_cast ha2
    have hxa : (0:ℝ) < 20 * (a : ℝ) := by linarith
    have hya : (0:ℝ) < 2000 - 20 * (a : ℝ) := by linarith
    have hsq : (0:ℝ) < Real.sqrt ((0.5:ℝ) * (1 - 0.5) *
        (1/(20 * (a : ℝ)) + 1/(2000 - 20 * (a : ℝ)))) := by
      apply Real.sqrt_pos.mpr
      have := one_div_pos.mpr hxa
      have := one_div_pos.mpr hya
      nlinarith
    exact mul_pos hS hsq
  have hcmp : ∀ a b : ℕ, 1 ≤ a → a ≤ 99 → 1 ≤ b → b ≤ 99 →
      b * (100 - b) < a * (100 - a) →
      (calculate_mde G 2000 ((a : ℕ) : ℝ) (4/5) (1/20)).1 * 100 <
        (calculate_mde G 2000 ((b : ℕ) : ℝ) (4/5) (1/20)).1 * 100 := by
    intro a b ha1 ha2 hb1 hb2 hab
    rw [calculate_mde_2000_fst G a ha1 ha2, calculate_mde_2000_fst G b hb1 hb2]
    have haR1 : (1:ℝ) ≤ (a : ℝ) := by exact_mod_cast ha1
    have haR2 : (a : ℝ) ≤ 99 := by exact_mod_cast ha2
    have hbR1 : (1:ℝ) ≤ (b : ℝ) := by exact_mod_cast hb1
    have hbR2 : (b : ℝ) ≤ 99 := by exact_mod_cast hb2
    have hxa : (0:ℝ) < 20 * (a : ℝ) := by linarith
    have hya : (0:ℝ) < 2000 - 20 * (a : ℝ) := by linarith
    have hxb : (0:ℝ) < 20 * (b : ℝ) := by linarith
    have hyb : (0:ℝ) < 2000 - 20 * (b : ℝ) := by linarith
    have hprod : 20 * (b : ℝ) * (2000 - 20 * (b : ℝ)) <
        20 * (a : ℝ) * (2000 - 20 * (a : ℝ)) := by
      have hcast : ((b * (100 - b) : ℕ) : ℝ) < ((a * (100 - a) : ℕ) : ℝ) := by
        exact_mod_cast hab
      have e1 : ((b * (100 - b) : ℕ) : ℝ) = (b : ℝ) * (100 - (b : ℝ)) := by
        push_cast [Nat.cast_sub (by omega : b ≤ 100)]
        ring
      have e2 : ((a * (100 - a) : ℕ) : ℝ) = (a : ℝ) * (100 - (a : ℝ)) := by
        push_cast [Nat.cast_sub (by omega : a ≤ 100)]
        ring
      rw [e1, e2] at hcast
      nlinarith
    have hsum : 1/(20 * (a : ℝ)) + 1/(2000 - 20 * (a : ℝ)) <
        1/(20 * (b : ℝ)) + 1/(2000 - 20 * (b : ℝ)) := by
      have ea : 1/(20 * (a : ℝ)) + 1/(2000 - 20 * (a : ℝ))
          = 2000 / (20 * (a : ℝ) * (2000 - 20 * (a : ℝ))) := by
        field_simp
      have eb : 1/(20 * (b : ℝ)) + 1/(2000 - 20 * (b : ℝ))
          = 2000 / (20 * (b : ℝ) * (2000 - 20 * (b : ℝ))) := by
        field_simp
      rw [ea, eb]
      exact div_lt_div_of_pos_left (by norm_num) (mul_pos hxb hyb) hprod
    have hA : (0.5:ℝ) * (1 - 0.5) * (1/(20 * (a : ℝ)) + 1/(2000 - 20 * (a : ℝ))) <
        (0.5:ℝ) * (1 - 0.5) * (1/(20 * (b : ℝ)) + 1/(2000 - 20 * (b : ℝ))) := by
      nlinarith
    have hA0 : (0:ℝ) ≤ (0.5:ℝ) * (1 - 0.5) *
        (1/(20 * (a : ℝ)) + 1/(2000 - 20 * (a : ℝ))) := by
      have := one_div_pos.mpr hxa
      have := one_div_pos.mpr hya
      nlinarith
    have hsq := Real.sqrt_lt_sqrt hA0 hA
    have step1 := mul_lt_mul_of_pos_left hsq hS
    exact mul_lt_mul_of_pos_right step1 (by norm_num)
  have hcollen : ((generate_treatment_comparison_data_mde G 2000 (4/5) (1/20)).map
      (fun p => p.2.1)).length = 19 := by
    simp [generate_treatment_comparison_data_mde]
  have hgetD : ∀ j : ℕ, j < 19 →
      ((generate_treatment_comparison_data_mde G 2000 (4/5) (1/20)).map
        (fun p => p.2.1)).getD j 0
      = (calculate_mde G 2000 ((5 + 5 * j : ℕ) : ℝ) (4/5) (1/20)).1 * 100 := by
    intro j hj
    rw [List.getD_eq_getD_get?]
    simp only [generate_treatment_comparison_data_mde, List.map_map]
    rw [List.get?_map, List.get?_range' 5 5 hj]
    rfl
  refine ⟨?_, ?_, ?_, ⟨?_, ?_, ?_⟩, ?_⟩
  · simp [generate_treatment_comparison_data_mde]
  · simp only [generate_treatment_comparison_data_mde, List.map_map]
    rfl
  · intro p hp
    simp only [generate_treatment_comparison_data_mde, List.mem_map] at hp
    obtain ⟨tp, htp, rfl⟩ := hp
    obtain ⟨i, hi, rfl⟩ := List.mem_range'.mp htp
    have h1 : 1 ≤ 5 + 5 * i := by omega
    have h2 : 5 + 5 * i ≤ 99 := by omega
    exact mul_pos (hpos _ h1 h2) (by norm_num)
  · rw [hcollen]
    norm_num
  · intro j hj
    rw [hcollen] at hj
    rw [hgetD 9 (by norm_num), hgetD j hj]
    interval_cases j
    all_goals first
      | exact le_refl _
      | (refine (hcmp _ _ ?_ ?_ ?_ ?_ ?_).le <;> norm_num)
  · intro j hj
    rw [hgetD 9 (by norm_num), hgetD j (by omega)]
    interval_cases j
    all_goals (apply hcmp <;> norm_num)
  · simp only [generate_treatment_comparison_data_mde, List.map_map]
    rfl


/-- Numeric bound: `e^4 < 55`. -/
theorem exp_four_lt : Real.exp 4 < 55 := by
  have h : Real.exp 4 = Real.exp 1 ^ 4 := by
    rw [← Real.exp_nat_mul]
    norm_num
  rw [h]
  calc Real.exp 1 ^ 4 < 2.7182818286 ^ 4 :=
        pow_lt_pow_left Real.exp_one_lt_d9 (Real.exp_pos 1).le (by norm_num)
    _ < 55 := by norm_num

/-- Numeric bound: `59873 < e^11 < 59875`. -/
theorem exp_eleven_bounds : (59873:ℝ) < Real.exp 11 ∧ Real.exp 11 < 59875 := by
  have h : Real.exp 11 = Real.exp 1 ^ 11 := by
    rw [← Real.exp_nat_mul]
    norm_num
  rw [h]
  constructor
  · calc (59873:ℝ) < 2.7182818283 ^ 11 := by norm_num
      _ < Real.exp 1 ^ 11 :=
        pow_lt_pow_left Real.exp_one_gt_d9 (by norm_num) (by norm_num)
  · calc Real.exp 1 ^ 11 < 2.7182818286 ^ 11 :=
        pow_lt_pow_left Real.exp_one_lt_d9 (Real.exp_pos 1).le (by norm_num)
      _ < 59875 := by norm_num

/-- Numeric bound: `4 < log 156 < 5.5`. -/
theorem log_156_bounds : (4:ℝ) < Real.log 156 ∧ Real.log 156 < 11/2 := by
  constructor
  · rw [Real.lt_log_iff_exp_lt (by norm_num)]
    calc Real.exp 4 < 55 := exp_four_lt
      _ < 156 := by norm_num
  · rw [Real.log_lt_iff_lt_exp (by norm_num)]
    have h : Real.exp (11/2) ^ 2 = Real.exp 11 := by
      rw [← Real.exp_nat_mul]
      norm_num
    apply lt_of_pow_lt_pow_left 2 (Real.exp_pos (11/2)).le
    rw [h]
    calc (156:ℝ) ^ 2 < 59873 := by norm_num
      _ < Real.exp 11 := exp_eleven_bounds.1

/-- `pyRound` sends everything in `[0, 1/2)` to 0. -/
theorem pyRound_eq_zero {x : ℝ} (h1 : 0 ≤ x) (h2 : x < 1/2) : pyRound x = 0 := by
  unfold pyRound
  have hfl : ⌊x⌋ = 0 := by
    rw [Int.floor_eq_iff]
    constructor
    · push_cast
      linarith
    · push_cast
      linarith
  rw [hfl]
  rw [if_neg (by push_cast; intro hh; linarith)]
  rw [round_eq, Int.floor_eq_iff]
  constructor
  · push_cast
    linarith
  · push_cast
    linarith

/-- The logistic model's critical value at `alpha = 0.05` is `log 39`. -/
theorem logistic_z_alpha : logisticGauss.ppf (1 - 1/20/2) = Real.log 39 := by
  show logisticPpf (1 - 1/20/2) = _
  unfold logisticPpf
  norm_num

/-- The logistic model's `z_beta` at `power = 0.8` is `log 4`. -/
theorem logistic_z_beta : logisticGauss.ppf (4/5) = Real.log 4 := by
  show logisticPpf (4/5) = _
  unfold logisticPpf
  norm_num

/-- C1 counterexample: at `mde = 6`, `power = 0.8`, `fracPercent = 50`,
`alpha = 0.05` the raw closed-form total is below 1, so both groups round
to 0 and the computed sample-size total is 0; feeding that total back into
`calculate_power` hits the empty-group guard and returns power 0 — more
than 0.01 away from the original 0.8, so the round-trip tolerance claim
fails. -/
theorem round_trip_counterexample :
    (calculate_sample_size logisticGauss 6 (4/5) 50 (1/20)).1 = 0 ∧
      1/100 < |(calculate_power logisticGauss 0 50 6 (1/20)).1 - 4/5| := by
  have hlog156 := log_156_bounds
  have hsum : Real.log 39 + Real.log 4 = Real.log 156 := by
    rw [← Real.log_mul (by norm_num) (by norm_num)]
    norm_num
  have hraw : nTotal_raw logisticGauss 6 (4/5) 50 (1/20)
      = (Real.log 156)^2 / 6^2 := by
    unfold nTotal_raw
    rw [logistic_z_alpha, logistic_z_beta, hsum]
    norm_num
  have hb1 : (0:ℝ) ≤ nTotal_raw logisticGauss 6 (4/5) 50 (1/20) * (50/100) := by
    rw [hraw]
    positivity
  have hb2 : nTotal_raw logisticGauss 6 (4/5) 50 (1/20) * (50/100) < 1/2 := by
    rw [hraw]
    rw [show (Real.log 156)^2 / 6^2 * ((50:ℝ)/100)
        = (Real.log 156)^2 * (1/72) by ring]
    nlinarith [hlog156.1, hlog156.2]
  have hss : calculate_sample_size logisticGauss 6 (4/5) 50 (1/20)
      = (0, 0, 0) := by
    rw [calculate_sample_size_eq]
    have hn1 : pyRound (nTotal_raw logisticGauss 6 (4/5) 50 (1/20) *
        ((50:ℝ)/100)) = 0 := pyRound_eq_zero hb1 hb2
    have heq : nTotal_raw logisticGauss 6 (4/5) 50 (1/20) * (1 - (50:ℝ)/100)
        = nTotal_raw logisticGauss 6 (4/5) 50 (1/20) * ((50:ℝ)/100) := by
      norm_num
    rw [heq, hn1]
    norm_num
  refine ⟨by rw [hss], ?_⟩
  have hn1 : pyInt (((0:ℤ):ℝ) * 50 / 100) = 0 := by
    have harg : ((0:ℤ):ℝ) * 50 / 100 = 0 := by norm_num
    unfold pyInt
    rw [if_pos (by norm_num), harg, Int.floor_zero]
  have hpw : (calculate_power logisticGauss 0 50 6 (1/20)).1 = 0 := by
    simp only [calculate_power]
    rw [hn1]
    rw [if_pos (Or.inl rfl)]
  rw [hpw, zero_sub, abs_neg, abs_of_nonneg (by norm_num : (0:ℝ) ≤ 4/5)]
  norm_num

/-- C1 amended: the round-trip is exactly consistent at the pre-rounding
level: evaluating the power formula with the ideal (un-rounded) group sizes
`raw*frac` and `raw*(1-frac)` returns `power + Φ(-(2*zAlpha + zBeta))`,
which strictly exceeds the original `power`.  Once the groups are rounded
to integers the recomputed power can differ from `power` by more than 0.01
(counterexample at `mde = 6`, where both rounded groups are empty). -/
theorem round_trip_ideal (G : Gauss) (mde power pct alpha : ℝ)
    (hmde : 0 < mde) (hp0 : 0 < pct) (hp1 : pct < 100)
    (hpow : 1/2 ≤ power) (hpow1 : power < 1) (ha : 0 < alpha) (ha1 : alpha < 1) :
    1 - G.cdf (G.ppf (1 - alpha/2) - mde / Real.sqrt ((0.5:ℝ) * (1 - 0.5) *
          (1/(nTotal_raw G mde power pct alpha * (pct/100)) +
            1/(nTotal_raw G mde power pct alpha * (1 - pct/100)))))
        + G.cdf (-G.ppf (1 - alpha/2) - mde / Real.sqrt ((0.5:ℝ) * (1 - 0.5) *
          (1/(nTotal_raw G mde power pct alpha * (pct/100)) +
            1/(nTotal_raw G mde power pct alpha * (1 - pct/100)))))
      = power + G.cdf (-(2 * G.ppf (1 - alpha/2) + G.ppf power)) ∧
    power <
      1 - G.cdf (G.ppf (1 - alpha/2) - mde / Real.sqrt ((0.5:ℝ) * (1 - 0.5) *
          (1/(nTotal_raw G mde power pct alpha * (pct/100)) +
            1/(nTotal_raw G mde power pct alpha * (1 - pct/100)))))
        + G.cdf (-G.ppf (1 - alpha/2) - mde / Real.sqrt ((0.5:ℝ) * (1 - 0.5) *
          (1/(nTotal_raw G mde power pct alpha * (pct/100)) +
            1/(nTotal_raw G mde power pct alpha * (1 - pct/100))))) := by
  have hpow0 : (0:ℝ) < power := by linarith
  have hS : 0 < G.ppf (1 - alpha/2) + G.ppf power := by
    have h1 := G.ppf_pos (p := 1 - alpha/2) (by linarith) (by linarith)
    have h2 := G.ppf_nonneg hpow hpow1
    linarith
  have hf0 : (0:ℝ) < pct/100 := by linarith
  have hf1 : pct/100 < 1 := by linarith
  have hgeneric : ∀ S m f : ℝ, S ≠ 0 → f ≠ 0 → 1 - f ≠ 0 →
      (0.5:ℝ) * (1 - 0.5) * (1/((S^2 * 0.25 / (f * (1 - f)) / m^2) * f) +
        1/((S^2 * 0.25 / (f * (1 - f)) / m^2) * (1 - f))) = (m / S)^2 := by
    intro S m f hSne hfne hf1ne
    field_simp
    ring
  have h2 : (1:ℝ) - pct/100 ≠ 0 := by
    intro hc
    rw [sub_eq_zero] at hc
    exact absurd hc.symm (ne_of_lt hf1)
  have harg : (0.5:ℝ) * (1 - 0.5) *
      (1/(nTotal_raw G mde power pct alpha * (pct/100)) +
        1/(nTotal_raw G mde power pct alpha * (1 - pct/100)))
      = (mde / (G.ppf (1 - alpha/2) + G.ppf power))^2 :=
    hgeneric (G.ppf (1 - alpha/2) + G.ppf power) mde (pct/100)
      (ne_of_gt hS) (ne_of_gt hf0) h2
  have hsq : Real.sqrt ((0.5:ℝ) * (1 - 0.5) *
      (1/(nTotal_raw G mde power pct alpha * (pct/100)) +
        1/(nTotal_raw G mde power pct alpha * (1 - pct/100))))
      = mde / (G.ppf (1 - alpha/2) + G.ppf power) := by
    rw [harg, Real.sqrt_sq (div_nonneg hmde.le hS.le)]
  have hms : mde / (mde / (G.ppf (1 - alpha/2) + G.ppf power))
      = G.ppf (1 - alpha/2) + G.ppf power := by
    have h3 : G.ppf (1 - alpha/2) + G.ppf power ≠ 0 := ne_of_gt hS
    have h4 : mde ≠ 0 := ne_of_gt hmde
    field_simp
  rw [hsq, hms]
  have e1 : G.ppf (1 - alpha/2) - (G.ppf (1 - alpha/2) + G.ppf power)
      = -G.ppf power := by ring
  have e2 : -G.ppf (1 - alpha/2) - (G.ppf (1 - alpha/2) + G.ppf power)
      = -(2 * G.ppf (1 - alpha/2) + G.ppf power) := by ring
  rw [e1, e2, G.sym, G.inv power hpow0 hpow1]
  constructor
  · ring
  · have := G.pos (-(2 * G.ppf (1 - alpha/2) + G.ppf power))
    linarith

/-- C1 amended witness: the ideal round-trip identity, evaluated at
`mde=0.1, power=0.8, frac=50, alpha=0.05` on the concrete model. -/
theorem round_trip_ideal_witness :
    1 - logisticGauss.cdf (logisticGauss.ppf (1 - (1/20)/2) -
          (1/10) / Real.sqrt ((0.5:ℝ) * (1 - 0.5) *
          (1/(nTotal_raw logisticGauss (1/10) (4/5) 50 (1/20) * ((50:ℝ)/100)) +
            1/(nTotal_raw logisticGauss (1/10) (4/5) 50 (1/20) * (1 - (50:ℝ)/100)))))
        + logisticGauss.cdf (-logisticGauss.ppf (1 - (1/20)/2) -
          (1/10) / Real.sqrt ((0.5:ℝ) * (1 - 0.5) *
          (1/(nTotal_raw logisticGauss (1/10) (4/5) 50 (1/20) * ((50:ℝ)/100)) +
            1/(nTotal_raw logisticGauss (1/10) (4/5) 50 (1/20) * (1 - (50:ℝ)/100)))))
      = 4/5 + logisticGauss.cdf (-(2 * logisticGauss.ppf (1 - (1/20)/2) +
          logisticGauss.ppf (4/5))) ∧
    (4/5:ℝ) <
      1 - logisticGauss.cdf (logisticGauss.ppf (1 - (1/20)/2) -
          (1/10) / Real.sqrt ((0.5:ℝ) * (1 - 0.5) *
          (1/(nTotal_raw logisticGauss (1/10) (4/5) 50 (1/20) * ((50:ℝ)/100)) +
            1/(nTotal_raw logisticGauss (1/10) (4/5) 50 (1/20) * (1 - (50:ℝ)/100)))))
        + logisticGauss.cdf (-logisticGauss.ppf (1 - (1/20)/2) -
          (1/10) / Real.sqrt ((0.5:ℝ) * (1 - 0.5) *
          (1/(nTotal_raw logisticGauss (1/10) (4/5) 50 (1/20) * ((50:ℝ)/100)) +
            1/(nTotal_raw logisticGauss (1/10) (4/5) 50 (1/20) * (1 - (50:ℝ)/100))))) :=
  round_trip_ideal logisticGauss (1/10) (4/5) 50 (1/20) (by norm_num) (by norm_num)
    (by norm_num) (by norm_num) (by norm_num) (by norm_num) (by norm_num)

end
